import Mathlib

/-!
Shallow embedding of `dstoolbox/pipeline.py` (extensions of sklearn's
`Pipeline` and `FeatureUnion`) and proofs about it.

Python runtime values that flow through the pipeline code (numpy arrays,
pandas frames/series, scipy sparse matrices, dicts, ...) are embedded as the
inductive type `Val`.  Estimator methods are embedded as `Method`: either a
plain bound method (`base`, holding the underlying function) or the wrapper
produced by `timing_decorator` (`timed`, holding the closed-over original
method together with the closed-over `name` and `method_name` strings).
Stateful Python objects are embedded by explicit state passing.
-/

namespace Dstoolbox

/-- Embedding of the Python runtime values handled by `pipeline.py`:
`None`, ints, strings, lists, dicts (insertion-ordered, as in Python),
2-d numpy arrays (stored column-major with an explicit row count),
pandas DataFrames (index plus named columns), pandas Series (index, name,
values) and scipy sparse matrices (column-major with a row count). -/
inductive Val where
  | none
  | int (n : Int)
  | str (s : String)
  | list (xs : List Val)
  | dict (entries : List (String × Val))
  | arr (nrows : Nat) (cols : List (List Int))
  | frame (index : List Int) (cols : List (String × List Int))
  | series (index : List Int) (name : String) (vals : List Int)
  | sparseMat (nrows : Nat) (cols : List (List Int))
deriving Repr

/-- The `.shape` attribute of a value: numpy arrays and sparse matrices have
`(nrows, ncols)`, frames `(len(index), ncols)`, series `(len,)`; every other
value raises `AttributeError` on attribute access, embedded as `none`. -/
def Val.shape : Val → Option (List Nat)
  | .arr n cols => some [n, cols.length]
  | .sparseMat n cols => some [n, cols.length]
  | .frame idx cols => some [idx.length, cols.length]
  | .series _ _ vals => some [vals.length]
  | _ => Option.none

/-- The first component of `.shape`, i.e. Python's `X.shape[0]` (the number
of samples); `none` when the value has no `shape` attribute. -/
def Val.nrows (v : Val) : Option Nat := v.shape.bind List.head?

/-- An estimator method as stored in an instance attribute: either the
original bound method (`base`, carrying the underlying function on the
argument list), or the wrapper that `timing_decorator` builds, which closes
over the original method `func`, the step `name` and the `method_name`. -/
inductive Method where
  | base (f : List Val → Val)
  | timed (func : Method) (name : String) (methodName : String)

/-- One closure cell of a function object. -/
inductive Cell where
  | meth (m : Method)
  | str (s : String)
  | sinkCell

/-- The `__closure__` attribute: a plain bound method closes over nothing
(`__closure__ is None`); the `wrapper` built by `timing_decorator` has free
variables `func`, `method_name`, `name`, `sink` which CPython stores in
cells ordered alphabetically, so the first cell holds `func`. -/
def Method.closure : Method → Option (List Cell)
  | .base _ => Option.none
  | .timed func name methodName =>
      some [Cell.meth func, Cell.str methodName, Cell.str name, Cell.sinkCell]

/-- A message that the timing wrapper sends to the sink: it shows the
method name, the step name truncated to 24 characters, and (when the result
has one) the result's shape.  The measured wall-clock duration also printed
by the wrapper is runtime-dependent and carries no information about the
computed values, so it is not part of the embedded message. -/
structure TimingMsg where
  methodName : String
  displayName : String
  shape : Option (List Nat)
deriving Repr

/-- Calling a method bound to its instance on an argument list, collecting
the messages sent to the sink.  A `base` method applies its function.  The
`timed` wrapper is rebound with `types.MethodType`, so Python prepends the
instance to the positional arguments (embedded by consing a placeholder
`Val.none`); the wrapper body then calls the closed-over `func` on
`args[1:]`, appends its timing message, and returns `func`'s result. -/
def Method.callLog : Method → List Val → Val × List TimingMsg
  | .base f, args => (f args, [])
  | .timed func name methodName, args =>
      let fullArgs := Val.none :: args
      let res := Method.callLog func (fullArgs.drop 1)
      (res.1, res.2 ++ [⟨methodName, name.take 24, res.1.shape⟩])

/-- A pipeline step (estimator instance) with its five timing-relevant
method attributes; `none` embeds `hasattr(step, name) == False`. -/
structure Step where
  fit : Option Method
  transform : Option Method
  fit_transform : Option Method
  predict : Option Method
  predict_proba : Option Method

/-- Embedding of `timing_decorator(est, name, method_name, sink)` applied to
the method currently stored at `method_name`: it returns the wrapper closing
over that method. -/
def timing_decorator (func : Method) (name : String) (methodName : String) : Method :=
  Method.timed func name methodName

/-- Wrap one optional method attribute as `_add_timed_sequence` does: absent
methods (`hasattr` false) are skipped, present ones are replaced by the
wrapper produced by `timing_decorator`. -/
def addTimedField (name : String) (methodName : String) : Option Method → Option Method :=
  Option.map (fun m => timing_decorator m name methodName)

/-- Embedding of the per-step body of `_add_timed_sequence`: each of the
methods `fit`, `transform`, `fit_transform`, `predict`, `predict_proba`
that the step exposes is wrapped and re-set on the instance. -/
def addTimedStep (name : String) (st : Step) : Step where
  fit := addTimedField name "fit" st.fit
  transform := addTimedField name "transform" st.transform
  fit_transform := addTimedField name "fit_transform" st.fit_transform
  predict := addTimedField name "predict" st.predict
  predict_proba := addTimedField name "predict_proba" st.predict_proba

/-- Embedding of `_add_timed_sequence(steps, sink)`: `tosequence` keeps a
list as it is, then every step has its exposed methods wrapped. -/
def addTimedSequence (steps : List (String × Step)) : List (String × Step) :=
  steps.map (fun p => (p.1, addTimedStep p.1 p.2))

/-- Embedding of the per-method body of `_shed_timed_sequence`: read the
attribute, take `__closure__[0].cell_contents` and re-set it.  On a plain
bound method `__closure__` is `None` and the subscript raises; the raise is
embedded as `none`. -/
def shedMethod (m : Method) : Option Method :=
  match m.closure with
  | Option.none => Option.none
  | some cells =>
      match cells.head? with
      | some (Cell.meth f) => some f
      | _ => Option.none

/-- Shed one optional method attribute: absent methods are skipped
(`hasattr` guard), present ones are replaced by the closed-over original. -/
def shedField : Option Method → Option (Option Method)
  | Option.none => some Option.none
  | some m => (shedMethod m).map some

/-- Embedding of the per-step body of `_shed_timed_sequence`. -/
def shedStep (st : Step) : Option Step := do
  let f ← shedField st.fit
  let t ← shedField st.transform
  let ft ← shedField st.fit_transform
  let p ← shedField st.predict
  let pp ← shedField st.predict_proba
  pure ⟨f, t, ft, p, pp⟩

/-- Embedding of `_shed_timed_sequence(steps)`: the steps after the in-place
unwrapping of every exposed method (`none` when an unwrapping raises). -/
def shedTimedSequence : List (String × Step) → Option (List (String × Step))
  | [] => some []
  | p :: rest => do
      let st ← shedStep p.2
      let rest2 ← shedTimedSequence rest
      pure ((p.1, st) :: rest2)

theorem shedField_addTimedField (name methodName : String) (f : Option Method) :
    shedField (addTimedField name methodName f) = some f := by
  cases f <;> rfl

theorem shedStep_addTimedStep (name : String) (st : Step) :
    shedStep (addTimedStep name st) = some st := by
  cases st with
  | mk f t ft p pp =>
    simp [shedStep, addTimedStep, shedField_addTimedField, bind, pure]

/-- Calling a step's optional method attribute: `none` when the method is
absent (an `AttributeError` in Python), otherwise the value the call
returns (the sink messages are dropped here). -/
def callOpt (m : Option Method) (args : List Val) : Option Val :=
  m.map (fun f => (f.callLog args).1)

/-- The `Pipeline.transform` contract over a steps list: thread the data
through each step's `transform` in order. -/
def pipeTransform (steps : List (String × Step)) (x : Val) : Option Val :=
  steps.foldlM (fun xt p => callOpt p.2.transform [xt]) x

/-- The `Pipeline.predict` contract over a steps list: thread the data
through every step but the last via `transform`, then call the final
step's `predict`. -/
def pipePredict (steps : List (String × Step)) (x : Val) : Option Val := do
  let last ← steps.getLast?
  let xt ← pipeTransform steps.dropLast x
  callOpt last.2.predict [xt]

/-- The `Pipeline.fit` contract over a steps list, value-level: thread the
data through every step but the last via `fit_transform`, then call the
final step's `fit` on the transformed data and the targets. -/
def pipeFit (steps : List (String × Step)) (x y : Val) : Option Val := do
  let last ← steps.getLast?
  let xt ← steps.dropLast.foldlM (fun xt p => callOpt p.2.fit_transform [xt, y]) x
  callOpt last.2.fit [xt, y]

theorem callLog_timed (func : Method) (name methodName : String) (args : List Val) :
    ((Method.timed func name methodName).callLog args).1 = (func.callLog args).1 := by
  simp [Method.callLog]

theorem callOpt_addTimedField (name methodName : String) (m : Option Method)
    (args : List Val) : callOpt (addTimedField name methodName m) args = callOpt m args := by
  cases m <;> simp [callOpt, addTimedField, timing_decorator, callLog_timed]

theorem pipeTransform_addTimedSequence (steps : List (String × Step)) (x : Val) :
    pipeTransform (addTimedSequence steps) x = pipeTransform steps x := by
  induction steps generalizing x with
  | nil => rfl
  | cons hd tl ih =>
    simp only [addTimedSequence, List.map_cons, pipeTransform, List.foldlM_cons] at *
    simp only [addTimedStep, callOpt_addTimedField]
    cases callOpt hd.2.transform [x] with
    | none => rfl
    | some xt => simpa [addTimedSequence] using ih xt

/-- C2: The timing wrapper is result-preserving: for every method wrapped
by `timing_decorator` and every argument list, the wrapped call returns
exactly the value the original method returns (the wrapper only adds a
message for the sink), so over the same steps the wrapped sequence that a
`TimedPipeline` holds computes the same `fit`, `transform` and `predict`
results as the untimed `Pipeline` contract on the unwrapped steps. -/
theorem timing_wrapper_result_preserving :
    (∀ (func : Method) (name methodName : String) (args : List Val),
      ((timing_decorator func name methodName).callLog args).1 = (func.callLog args).1)
    ∧ (∀ (steps : List (String × Step)) (x : Val),
      pipeTransform (addTimedSequence steps) x = pipeTransform steps x)
    ∧ (∀ (steps : List (String × Step)) (x : Val),
      pipePredict (addTimedSequence steps) x = pipePredict steps x)
    ∧ (∀ (steps : List (String × Step)) (x y : Val),
      pipeFit (addTimedSequence steps) x y = pipeFit steps x y) := by
  refine ⟨fun func name methodName args => callLog_timed func name methodName args,
    pipeTransform_addTimedSequence, fun steps x => ?_, fun steps x y => ?_⟩
  · cases steps with
    | nil => rfl
    | cons hd tl =>
      simp only [pipePredict, addTimedSequence]
      rw [List.getLast?_map, ← List.map_dropLast]
      cases hl : (hd :: tl).getLast? with
      | none => simp at hl
      | some last =>
        have htr : pipeTransform
            (List.map (fun p => (p.1, addTimedStep p.1 p.2)) (hd :: tl).dropLast) x
            = pipeTransform (hd :: tl).dropLast x := pipeTransform_addTimedSequence _ x
        rw [htr]
        cases pipeTransform (hd :: tl).dropLast x with
        | none => rfl
        | some xt => simp [addTimedStep, callOpt_addTimedField]
  · cases steps with
    | nil => rfl
    | cons hd tl =>
      simp only [pipeFit, addTimedSequence]
      rw [List.getLast?_map, ← List.map_dropLast]
      cases hl : (hd :: tl).getLast? with
      | none => simp at hl
      | some last =>
        have hfold : ∀ (l : List (String × Step)) (x0 : Val),
            (l.map (fun p => (p.1, addTimedStep p.1 p.2))).foldlM
              (fun xt p => callOpt p.2.fit_transform [xt, y]) x0
            = l.foldlM (fun xt p => callOpt p.2.fit_transform [xt, y]) x0 := by
          intro l
          induction l with
          | nil => intro x0; rfl
          | cons h2 t2 ih2 =>
            intro x0
            simp only [List.map_cons, List.foldlM_cons, addTimedStep,
              callOpt_addTimedField]
            cases callOpt h2.2.fit_transform [x0, y] with
            | none => rfl
            | some xt => simpa using ih2 xt
        rw [hfold]
        cases (hd :: tl).dropLast.foldlM
            (fun xt p => callOpt p.2.fit_transform [xt, y]) x with
        | none => rfl
        | some xt => simp [addTimedStep, callOpt_addTimedField]

/-- C1: Adding and then shedding timing is a round trip: for every steps
sequence, applying `_add_timed_sequence` (as `TimedPipeline.__init__` or
`add_timing` does) and then `_shed_timed_sequence` (as `shed_timing` does)
restores each method (`fit`, `transform`, `fit_transform`, `predict`,
`predict_proba`) of each step to exactly the function it was before
wrapping, recovered from the wrapper's first closure cell. -/
theorem add_then_shed_timing_roundtrip (steps : List (String × Step)) :
    shedTimedSequence (addTimedSequence steps) = some steps := by
  induction steps with
  | nil => rfl
  | cons hd tl ih =>
    simp only [addTimedSequence, List.map_cons] at *
    simp [shedTimedSequence, shedStep_addTimedStep, ih, bind, pure]

/-- The `y_transformer` object held by a `PipelineY`, embedded with explicit
state passing: `fitS` maps the old internal state and the targets to the new
state (Python's mutating `fit`), `transformS` and `inverseS` apply
`transform` / `inverse_transform` given the current state. -/
structure YTransformer where
  state : Val
  fitS : Val → Val → Val
  transformS : Val → Val → Val
  inverseS : Val → Val → Val

/-- `y_transformer.fit(y)`: the transformer with its state updated. -/
def YTransformer.fit (t : YTransformer) (y : Val) : YTransformer :=
  { t with state := t.fitS t.state y }

/-- `y_transformer.transform(y)` at the current state. -/
def YTransformer.transform (t : YTransformer) (y : Val) : Val :=
  t.transformS t.state y

/-- `y_transformer.inverse_transform(yt)` at the current state. -/
def YTransformer.inverse_transform (t : YTransformer) (yt : Val) : Val :=
  t.inverseS t.state yt

/-- The behavior `PipelineY` inherits from sklearn's `Pipeline`, embedded
abstractly: `state` is the fitted state, `fitF` is `Pipeline.fit` (returning
the result value and the new state), `predictF` and `scoreF` are
`Pipeline.predict` / `Pipeline.score`, and the two flags record whether the
final estimator implements `predict` / `score` (the condition checked by
`@if_delegate_has_method(delegate='_final_estimator')`). -/
structure BasePipeline where
  state : Val
  fitF : Val → Val → Val → List (String × Val) → Val × Val
  predictF : Val → Val → Val
  scoreF : Val → Val → Val → Val
  finalHasPredict : Bool
  finalHasScore : Bool

/-- A `PipelineY` instance: the inherited base pipeline plus the
`y_transformer` attribute. -/
structure PipelineY where
  base : BasePipeline
  y_transformer : YTransformer

/-- Embedding of `PipelineY.y_transform`: delegate to the transformer. -/
def PipelineY.y_transform (p : PipelineY) (y : Val) : Val :=
  p.y_transformer.transform y

/-- Embedding of `PipelineY.y_inverse_transform`. -/
def PipelineY.y_inverse_transform (p : PipelineY) (yt : Val) : Val :=
  p.y_transformer.inverse_transform yt

/-- Embedding of `PipelineY.fit(X, y, **fit_params)`:
`self.y_transformer.fit(y)` (mutating the transformer), then
`yt = self.y_transform(y)`, then `return super().fit(X, yt, **fit_params)`.
The returned pair is the base fit's result and the updated instance. -/
def PipelineY.fit (p : PipelineY) (X y : Val) (fitParams : List (String × Val)) :
    Val × PipelineY :=
  let p1 : PipelineY := { p with y_transformer := p.y_transformer.fit y }
  let yt := p1.y_transform y
  let res := p1.base.fitF p1.base.state X yt fitParams
  (res.1, { p1 with base := { p1.base with state := res.2 } })

/-- Embedding of `PipelineY.predict(X, inverse=False)`: guarded by
`if_delegate_has_method` (calling it when the final estimator has no
`predict` raises `AttributeError`, embedded as `none`); otherwise
`y_pred = super().predict(X)`, inverse-transformed when `inverse` is set. -/
def PipelineY.predict (p : PipelineY) (X : Val) (inverse : Bool) : Option Val :=
  if p.base.finalHasPredict then
    let y_pred := p.base.predictF p.base.state X
    some (if inverse then p.y_inverse_transform y_pred else y_pred)
  else Option.none

/-- Embedding of `PipelineY.score(X, y)`: guarded by
`if_delegate_has_method`; otherwise `yt = self.y_transform(y)` and
`return super().score(X, yt)`. -/
def PipelineY.score (p : PipelineY) (X y : Val) : Option Val :=
  if p.base.finalHasScore then
    let yt := p.y_transform y
    some (p.base.scoreF p.base.state X yt)
  else Option.none

/-- C3: For every training input `X` and target `y`, `PipelineY.fit` first
fits `self.y_transformer` on `y`, then delegates to the base
`Pipeline.fit` with the targets replaced by `y_transformer.transform(y)`
(the transform of the freshly fitted transformer) while `X` and the fit
parameters are passed through unchanged, and returns the base fit's
result. -/
theorem pipelineY_fit_transforms_targets (p : PipelineY) (X y : Val)
    (fitParams : List (String × Val)) :
    (p.fit X y fitParams).1
      = (p.base.fitF p.base.state X ((p.y_transformer.fit y).transform y) fitParams).1
    ∧ (p.fit X y fitParams).2.y_transformer = p.y_transformer.fit y := by
  exact ⟨rfl, rfl⟩

/-- C3 witness: evaluate `PipelineY.fit` at a concrete pipeline. -/
theorem pipelineY_fit_transforms_targets_witness :
    let t : YTransformer :=
      ⟨Val.int 0, fun _ y => y, fun s _ => s, fun _ yt => yt⟩
    let b : BasePipeline :=
      ⟨Val.int 0, fun _ _ y _ => (y, Val.int 1), fun _ x => x, fun _ _ y => y,
        true, true⟩
    let p : PipelineY := ⟨b, t⟩
    (p.fit (Val.int 5) (Val.int 7) []).1 = Val.int 7 := by
  have h := pipelineY_fit_transforms_targets
    ⟨⟨Val.int 0, fun _ _ y _ => (y, Val.int 1), fun _ x => x, fun _ _ y => y,
      true, true⟩,
     ⟨Val.int 0, fun _ y => y, fun s _ => s, fun _ yt => yt⟩⟩
    (Val.int 5) (Val.int 7) []
  exact h.1.trans rfl

/-- C4: For every input `X`, `PipelineY.predict(X, inverse=False)` returns
exactly the base `Pipeline.predict(X)` result unchanged, and
`PipelineY.predict(X, inverse=True)` returns
`y_transformer.inverse_transform` applied to that base prediction; the
method is available only when the final estimator implements `predict`
(otherwise every call fails with `AttributeError`, embedded as `none`). -/
theorem pipelineY_predict_inverse (p : PipelineY) (X : Val) :
    (p.base.finalHasPredict = true →
      p.predict X false = some (p.base.predictF p.base.state X)
      ∧ p.predict X true
          = some (p.y_transformer.inverse_transform (p.base.predictF p.base.state X)))
    ∧ (p.base.finalHasPredict = false →
      ∀ inverse : Bool, p.predict X inverse = Option.none) := by
  constructor
  · intro h
    constructor <;> simp [PipelineY.predict, h, PipelineY.y_inverse_transform]
  · intro h inverse
    simp [PipelineY.predict, h]

/-- C4 witness: apply the theorem at a concrete pipeline whose final
estimator has `predict`, and at one whose final estimator lacks it. -/
theorem pipelineY_predict_inverse_witness :
    let t : YTransformer :=
      ⟨Val.int 0, fun s _ => s, fun s _ => s, fun _ yt => Val.list [yt]⟩
    let b : BasePipeline :=
      ⟨Val.int 0, fun _ _ y _ => (y, Val.int 1), fun _ _ => Val.int 9,
        fun _ _ y => y, true, true⟩
    let p : PipelineY := ⟨b, t⟩
    let pNo : PipelineY := ⟨{ b with finalHasPredict := false }, t⟩
    p.predict (Val.int 3) false = some (Val.int 9)
    ∧ p.predict (Val.int 3) true = some (Val.list [Val.int 9])
    ∧ pNo.predict (Val.int 3) false = Option.none := by
  intro t b p pNo
  refine ⟨((pipelineY_predict_inverse p (Val.int 3)).1 rfl).1.trans rfl,
    ((pipelineY_predict_inverse p (Val.int 3)).1 rfl).2.trans rfl,
    (pipelineY_predict_inverse pNo (Val.int 3)).2 rfl false⟩

/-- C5: For every `X` and `y`, `PipelineY.score(X, y)` equals the base
`Pipeline.score` called on `X` and the transformed targets
`y_transformer.transform(y)`: the targets given by the caller are passed to
the underlying score only through `y_transform`, never untransformed. -/
theorem pipelineY_score_transforms_targets (p : PipelineY) (X y : Val)
    (h : p.base.finalHasScore = true) :
    p.score X y = some (p.base.scoreF p.base.state X (p.y_transformer.transform y)) := by
  simp [PipelineY.score, h, PipelineY.y_transform]

/-- C5 witness: evaluate `PipelineY.score` at a concrete pipeline. -/
theorem pipelineY_score_transforms_targets_witness :
    let t : YTransformer :=
      ⟨Val.int 0, fun s _ => s, fun _ y => Val.list [y], fun _ yt => yt⟩
    let b : BasePipeline :=
      ⟨Val.int 0, fun _ _ y _ => (y, Val.int 1), fun _ x => x,
        fun _ _ y => y, true, true⟩
    let p : PipelineY := ⟨b, t⟩
    p.score (Val.int 3) (Val.int 4) = some (Val.list [Val.int 4]) := by
  intro t b p
  exact (pipelineY_score_transforms_targets p (Val.int 3) (Val.int 4) rfl).trans rfl

/-- The `y_transformer` argument as seen by the constructor's
`hasattr(y_transformer, "transform")` check. -/
structure YTObj where
  hasTransform : Bool

/-- Outcome of running `PipelineY.__init__`. -/
inductive InitOutcome where
  | ok
  | stepsTypeError
  | ytTypeError
deriving Repr, DecidableEq

/-- The instance attributes assigned so far when `__init__` terminates
(normally or with an exception); `none` embeds a never-assigned attribute. -/
structure InitAttrs where
  y_transformer : Option YTObj
  steps : Option (List (String × Val))

/-- Embedding of `PipelineY.__init__(steps, y_transformer)`: first
`self.y_transformer = y_transformer`; then `super().__init__(steps=steps)`,
which (sklearn 0.18) stores `self.steps = tosequence(steps)` and then runs
`self._validate_steps()` — its outcome is the parameter `stepsValid`, and a
failure raises `TypeError` out of the constructor; finally the
`hasattr(y_transformer, "transform")` check raises `TypeError` when it
fails.  The result is the outcome together with the assigned attributes. -/
def pipelineYInit (stepsValid : Bool) (steps : List (String × Val)) (yt : YTObj) :
    InitOutcome × InitAttrs :=
  let attrs0 : InitAttrs := ⟨some yt, Option.none⟩
  let attrs1 : InitAttrs := { attrs0 with steps := some steps }
  if stepsValid = false then (InitOutcome.stepsTypeError, attrs1)
  else if yt.hasTransform = false then (InitOutcome.ytTypeError, attrs1)
  else (InitOutcome.ok, attrs1)

/-- C10: `PipelineY.__init__` raises `TypeError` for every `y_transformer`
lacking a `transform` attribute; the check runs only after the base
`Pipeline` constructor has stored and validated the steps, so a bad
`y_transformer` is rejected only when the steps themselves are acceptable
(invalid steps raise the base constructor's own error first), and both the
`y_transformer` attribute and the steps have already been assigned when
the error is raised. -/
theorem pipelineY_init_rejects_bad_y_transformer (stepsValid : Bool)
    (steps : List (String × Val)) (yt : YTObj) (hyt : yt.hasTransform = false) :
    (stepsValid = true →
      (pipelineYInit stepsValid steps yt).1 = InitOutcome.ytTypeError
      ∧ (pipelineYInit stepsValid steps yt).2.y_transformer = some yt
      ∧ (pipelineYInit stepsValid steps yt).2.steps = some steps)
    ∧ (stepsValid = false →
      (pipelineYInit stepsValid steps yt).1 = InitOutcome.stepsTypeError) := by
  constructor
  · intro hs
    refine ⟨?_, ?_, ?_⟩ <;> simp [pipelineYInit, hs, hyt]
  · intro hs
    simp [pipelineYInit, hs]

/-- C10 witness: a transformer without `transform` is rejected with
`TypeError` after the attributes were assigned (valid steps), and masked by
the base constructor's error on invalid steps. -/
theorem pipelineY_init_rejects_bad_y_transformer_witness :
    (pipelineYInit true [("s", Val.int 0)] ⟨false⟩).1 = InitOutcome.ytTypeError
    ∧ (pipelineYInit true [("s", Val.int 0)] ⟨false⟩).2.y_transformer = some ⟨false⟩
    ∧ (pipelineYInit true [("s", Val.int 0)] ⟨false⟩).2.steps = some [("s", Val.int 0)]
    ∧ (pipelineYInit false [("s", Val.int 0)] ⟨false⟩).1 = InitOutcome.stepsTypeError := by
  have h1 := (pipelineY_init_rejects_bad_y_transformer true [("s", Val.int 0)] ⟨false⟩ rfl).1 rfl
  have h2 := (pipelineY_init_rejects_bad_y_transformer false [("s", Val.int 0)] ⟨false⟩ rfl).2 rfl
  exact ⟨h1.1, h1.2.1, h1.2.2, h2⟩

/-- Python dict assignment `d[k] = v` on an insertion-ordered dict embedded
as a duplicate-free association list: an existing key keeps its position and
gets the new value, a new key is appended. -/
def dictInsert : List (String × Val) → String → Val → List (String × Val)
  | [], k, v => [(k, v)]
  | p :: rest, k, v => if p.1 == k then (k, v) :: rest else p :: dictInsert rest k v

/-- Python's `dict(pairs)`: insert the pairs left to right into an empty
dict, so a later pair with the same key overwrites an earlier one. -/
def listToDict (pairs : List (String × Val)) : List (String × Val) :=
  pairs.foldl (fun d p => dictInsert d p.1 p.2) []

/-- The index list CPython's `PySlice_GetIndicesEx` produces for a slice
`start:stop:step` of a sequence of length `len` (each component optional);
`none` embeds the `ValueError` raised for a zero step.  Bounds are clamped
exactly as CPython clamps them, and for a negative step the indices run
downwards. -/
def pySliceIndices (len : Nat) (start stop step : Option Int) : Option (List Nat) :=
  let st := step.getD 1
  if st = 0 then Option.none
  else
    let L : Int := len
    if st > 0 then
      let s := match start with
        | Option.none => 0
        | some v => if v < 0 then max (v + L) 0 else min v L
      let e := match stop with
        | Option.none => L
        | some v => if v < 0 then max (v + L) 0 else min v L
      some ((List.range len).filter
        (fun (i : Nat) => decide (s ≤ (i : Int)) && decide ((i : Int) < e)
          && (((i : Int) - s) % st == 0)))
    else
      let s := match start with
        | Option.none => L - 1
        | some v => if v < 0 then max (v + L) (-1) else min v (L - 1)
      let e := match stop with
        | Option.none => -1
        | some v => if v < 0 then max (v + L) (-1) else min v (L - 1)
      some (((List.range len).filter
        (fun (i : Nat) => decide (e < (i : Int)) && decide ((i : Int) ≤ s)
          && ((s - (i : Int)) % (-st) == 0))).reverse)

/-- Python list slicing `l[start:stop:step]`. -/
def pySliceList (l : List α) (start stop step : Option Int) : Option (List α) :=
  (pySliceIndices l.length start stop step).map
    (List.filterMap (fun i => l[i]?))

/-- Python list subscription `l[i]` with an integer index: a negative index
counts from the end; an out-of-range index raises `IndexError`, embedded as
`none`. -/
def pyGetInt (l : List α) (i : Int) : Option α :=
  let L : Int := l.length
  let j : Int := if i < 0 then i + L else i
  if 0 ≤ j ∧ j < L then l[j.toNat]? else Option.none

/-- The index forms `SliceMixin.__getitem__` distinguishes. -/
inductive Idx where
  | str (s : String)
  | slice (start stop step : Option Int)
  | int (i : Int)

/-- The possible outcomes of `SliceMixin.__getitem__`. -/
inductive GetRes where
  | obj (v : Val)
  | pairs (ps : List (String × Val))
  | attrErr
  | keyErr
  | indexErr
  | valueErr
deriving Repr

/-- An object using `SliceMixin`: its optional `steps` and
`transformer_list` attributes (`none` embeds an absent attribute). -/
structure SliceObj where
  steps : Option (List (String × Val))
  transformer_list : Option (List (String × Val))

/-- Truthiness of `getattr(self, attr, False)`: `False` when the attribute
is absent, else the truthiness of the list (empty lists are falsy). -/
def truthyAttr : Option (List (String × Val)) → Bool
  | Option.none => false
  | some l => !l.isEmpty

/-- The `container` the mixin works on:
`getattr(self, 'steps', False) or getattr(self, 'transformer_list', False)`,
collapsed to `none` when both operands are falsy. -/
def SliceObj.container (o : SliceObj) : Option (List (String × Val)) :=
  if truthyAttr o.steps then o.steps
  else if truthyAttr o.transformer_list then o.transformer_list
  else Option.none

/-- Embedding of `SliceMixin.__getitem__`: raise `AttributeError` on a falsy
container; then dispatch on the index form — a string key goes through
`dict(container)[idx]`, a slice through `container[idx]`, anything else
through `container[idx][1]`. -/
def SliceObj.getitem (o : SliceObj) (idx : Idx) : GetRes :=
  match o.container with
  | Option.none => GetRes.attrErr
  | some c =>
    match idx with
    | Idx.str k =>
        match (listToDict c).lookup k with
        | some v => GetRes.obj v
        | Option.none => GetRes.keyErr
    | Idx.slice a b st =>
        match pySliceList c a b st with
        | some ps => GetRes.pairs ps
        | Option.none => GetRes.valueErr
    | Idx.int i =>
        match pyGetInt c i with
        | some p => GetRes.obj p.2
        | Option.none => GetRes.indexErr

theorem lookup_cons (a : String) (b : Val) (rest : List (String × Val)) (q : String) :
    ((a, b) :: rest).lookup q = if q = a then some b else rest.lookup q := by
  by_cases h : q = a
  · subst h; simp [List.lookup]
  · simp [List.lookup, h, beq_eq_false_iff_ne.mpr h]

theorem lookup_dictInsert (d : List (String × Val)) (k q : String) (v : Val) :
    (dictInsert d k v).lookup q = if q = k then some v else d.lookup q := by
  induction d with
  | nil =>
    by_cases h : q = k <;> simp [dictInsert, lookup_cons, h]
  | cons p rest ih =>
    rcases p with ⟨a, b⟩
    by_cases hpk : a = k
    · subst hpk
      by_cases hqk : q = a <;> simp [dictInsert, lookup_cons, hqk]
    · have hb : (a == k) = false := beq_eq_false_iff_ne.mpr hpk
      by_cases hqa : q = a
      · subst hqa
        have hqk : ¬ q = k := hpk
        simp [dictInsert, hb, lookup_cons, hqk]
      · simp [dictInsert, hb, lookup_cons, hqa, ih]

theorem lookup_append_assoc (l1 l2 : List (String × Val)) (q : String) :
    (l1 ++ l2).lookup q
      = match l1.lookup q with
        | some v => some v
        | Option.none => l2.lookup q := by
  induction l1 with
  | nil => simp [List.lookup]
  | cons p rest ih =>
    rcases p with ⟨a, b⟩
    by_cases hpq : q = a
    · simp [lookup_cons, hpq]
    · simp [lookup_cons, hpq, ih]

theorem lookup_listToDict_aux (c : List (String × Val)) :
    ∀ (acc : List (String × Val)) (q : String),
      (c.foldl (fun d p => dictInsert d p.1 p.2) acc).lookup q
        = match c.reverse.lookup q with
          | some v => some v
          | Option.none => acc.lookup q := by
  induction c with
  | nil => intro acc q; simp [List.lookup]
  | cons p rest ih =>
    intro acc q
    simp only [List.foldl_cons, List.reverse_cons]
    rw [ih, lookup_append_assoc]
    cases rest.reverse.lookup q with
    | none =>
      simp only [lookup_dictInsert]
      rcases p with ⟨a, b⟩
      by_cases hqa : q = a
      · simp [lookup_cons, hqa, List.lookup]
      · simp [lookup_cons, hqa, List.lookup, beq_eq_false_iff_ne.mpr hqa]
    | some v => simp

/-- Python `dict(pairs)[q]` finds the value of the last pair whose key is
`q` (later keys overwrite earlier ones). -/
theorem lookup_listToDict (c : List (String × Val)) (q : String) :
    (listToDict c).lookup q = c.reverse.lookup q := by
  rw [listToDict, lookup_listToDict_aux]
  cases c.reverse.lookup q <;> simp [List.lookup]

theorem filterMap_getElem_range (l : List α) :
    (List.range l.length).filterMap (fun i => l[i]?) = l := by
  induction l with
  | nil => simp
  | cons a rest ih =>
    have hcomp : ((fun i => (a :: rest)[i]?) ∘ Nat.succ) = (fun i => rest[i]?) := by
      funext i
      simp
    simp only [List.length_cons, List.range_succ_eq_map, List.filterMap_cons,
      List.filterMap_map, hcomp, List.getElem?_cons_zero]
    simpa using ih

theorem filterMap_filter_range_sublist (l : List α) (pred : Nat → Bool) :
    (((List.range l.length).filter pred).filterMap (fun i => l[i]?)).Sublist l := by
  have h1 : ((List.range l.length).filter pred).Sublist (List.range l.length) :=
    List.filter_sublist _
  have h2 := List.Sublist.filterMap (fun i => l[i]?) h1
  rwa [filterMap_getElem_range] at h2

theorem pySliceList_mem {l : List α} {a b st : Option Int} {ps : List α}
    (h : pySliceList l a b st = some ps) : ∀ p ∈ ps, p ∈ l := by
  intro p hp
  rcases Option.map_eq_some'.mp h with ⟨idxs, _, rfl⟩
  rcases List.mem_filterMap.mp hp with ⟨i, _, hget⟩
  exact List.getElem?_mem hget

theorem pySliceList_sublist {l : List α} {a b st : Option Int} {ps : List α}
    (h : pySliceList l a b st = some ps) : ps.Sublist l ∨ ps.reverse.Sublist l := by
  rcases Option.map_eq_some'.mp h with ⟨idxs, hidx, rfl⟩
  simp only [pySliceIndices] at hidx
  by_cases h0 : st.getD 1 = 0
  · simp [h0] at hidx
  · simp only [h0, if_false] at hidx
    by_cases hpos : st.getD 1 > 0
    · left
      simp only [hpos, if_true] at hidx
      rcases Option.some.inj hidx with rfl
      exact filterMap_filter_range_sublist l _
    · right
      simp only [hpos, if_false] at hidx
      rcases Option.some.inj hidx with rfl
      rw [List.filterMap_reverse, List.reverse_reverse]
      exact filterMap_filter_range_sublist l _

theorem pyGetInt_nonneg (l : List α) (i : Nat) (h : i < l.length) :
    pyGetInt l (i : Int) = l[i]? := by
  have h1 : ¬ ((i : Int) < 0) := by omega
  have h2 : (0 : Int) ≤ (i : Int) ∧ (i : Int) < (l.length : Int) := by
    constructor <;> omega
  simp [pyGetInt, h1, h2]

theorem pyGetInt_negIdx (l : List α) (i : Nat) (h0 : 0 < i) (h : i ≤ l.length) :
    pyGetInt l (-(i : Int)) = l[l.length - i]? := by
  have h1 : (-(i : Int) < 0) := by omega
  have h2 : (0 : Int) ≤ -(i : Int) + (l.length : Int)
      ∧ -(i : Int) + (l.length : Int) < (l.length : Int) := by
    constructor <;> omega
  have h3 : (-(i : Int) + (l.length : Int)).toNat = l.length - i := by omega
  simp [pyGetInt, h1, h2, h3]

/-- C8: On every `SliceMixin` object whose truthy container is the pair
list `cont`, `__getitem__` with a string key returns the object that
`dict(container)` pairs with that key — the last pair in `cont` with that
name (`KeyError` when absent); with a slice it returns the Python slice of
`cont`, a list of `(name, object)` pairs each of which is an entry of `cont` (in
container order for a non-negative step, reversed for a negative one); and
with an integer index — including a negative one — it returns the second
component (the object) of the pair at that position. -/
theorem sliceMixin_getitem_spec (o : SliceObj) (cont : List (String × Val))
    (hc : o.container = some cont) :
    (∀ k : String, o.getitem (Idx.str k)
        = match cont.reverse.lookup k with
          | some v => GetRes.obj v
          | Option.none => GetRes.keyErr)
    ∧ (∀ a b st ps, pySliceList cont a b st = some ps →
        o.getitem (Idx.slice a b st) = GetRes.pairs ps
        ∧ (∀ p ∈ ps, p ∈ cont) ∧ (ps.Sublist cont ∨ ps.reverse.Sublist cont))
    ∧ (∀ (i : Int) (p : String × Val), pyGetInt cont i = some p →
        o.getitem (Idx.int i) = GetRes.obj p.2)
    ∧ (∀ i : Nat, i < cont.length → pyGetInt cont (i : Int) = cont[i]?)
    ∧ (∀ i : Nat, 0 < i → i ≤ cont.length → pyGetInt cont (-(i : Int)) = cont[cont.length - i]?) := by
  refine ⟨?_, ?_, ?_, fun i h => pyGetInt_nonneg cont i h,
    fun i h0 h => pyGetInt_negIdx cont i h0 h⟩
  · intro k
    simp only [SliceObj.getitem, hc, lookup_listToDict]
  · intro a b st ps hps
    refine ⟨?_, pySliceList_mem hps, pySliceList_sublist hps⟩
    simp only [SliceObj.getitem, hc, hps]
  · intro i p hp
    simp only [SliceObj.getitem, hc, hp]

/-- C8 witness: a concrete three-step container, accessed by duplicate
name (last pair wins), by full slice (all pairs) and by index `-1`. -/
theorem sliceMixin_getitem_spec_witness :
    let cont : List (String × Val) := [("a", Val.int 1), ("b", Val.int 2), ("a", Val.int 3)]
    let o : SliceObj := ⟨some cont, Option.none⟩
    o.getitem (Idx.str "a") = GetRes.obj (Val.int 3)
    ∧ o.getitem (Idx.slice Option.none Option.none Option.none) = GetRes.pairs cont
    ∧ o.getitem (Idx.int (-1)) = GetRes.obj (Val.int 3) := by
  intro cont o
  have h := sliceMixin_getitem_spec o cont rfl
  exact ⟨(h.1 "a").trans (by rfl),
    (h.2.1 Option.none Option.none Option.none cont (by rfl)).1,
    h.2.2.1 (-1) ("a", Val.int 3) (by rfl)⟩

/-- C9: `SliceMixin.__getitem__` raises `AttributeError` not only when the
object has neither a `steps` nor a `transformer_list` attribute, but
whenever both attributes are falsy; an existing but empty `steps` list is
indistinguishable from an absent one, and on an empty pipeline or union
every subscript access raises `AttributeError` regardless of the index. -/
theorem sliceMixin_getitem_falsy_attrError :
    (∀ (o : SliceObj), truthyAttr o.steps = false →
      truthyAttr o.transformer_list = false →
      ∀ idx, o.getitem idx = GetRes.attrErr)
    ∧ (∀ (tl : Option (List (String × Val))) (idx : Idx),
      SliceObj.getitem ⟨some [], tl⟩ idx = SliceObj.getitem ⟨Option.none, tl⟩ idx)
    ∧ (∀ idx : Idx, SliceObj.getitem ⟨some [], some []⟩ idx = GetRes.attrErr) := by
  refine ⟨?_, ?_, ?_⟩
  · intro o h1 h2 idx
    simp [SliceObj.getitem, SliceObj.container, h1, h2]
  · intro tl idx
    simp [SliceObj.getitem, SliceObj.container, truthyAttr]
  · intro idx
    simp [SliceObj.getitem, SliceObj.container, truthyAttr]

/-- C9 witness: an empty `steps` pipeline and an empty union both raise. -/
theorem sliceMixin_getitem_falsy_attrError_witness :
    SliceObj.getitem ⟨some [], Option.none⟩ (Idx.int 0) = GetRes.attrErr
    ∧ SliceObj.getitem ⟨some [], some []⟩ (Idx.str "clf") = GetRes.attrErr := by
  exact ⟨sliceMixin_getitem_falsy_attrError.1 ⟨some [], Option.none⟩ rfl rfl (Idx.int 0),
    sliceMixin_getitem_falsy_attrError.2.2 (Idx.str "clf")⟩

/-- A feature-union sub-transformer, embedded by its `transform` and
`fit_transform` behaviors as functions on the input data.  (sklearn 0.18's
`_transform_one`/`_fit_transform_one` would additionally multiply the
output by the transformer's weight; `transformer_weights` defaults to
`None`, in which case both helpers return the output unchanged, and that is
the configuration embedded here.) -/
structure Trans where
  transformF : Val → Val
  fitTransformF : Val → Val

/-- The outputs of the active transformers of a `transformer_list`, in
list order: `FeatureUnion._iter` skips the entries whose transformer is
`None`, and the `Parallel` helper returns one output per remaining entry. -/
def activeOutputs (out : Trans → Val) (tl : List (String × Option Trans)) : List Val :=
  tl.filterMap (fun p => p.2.map out)

/-- One iteration of the `_update_transformed_dict` loop body: a dict
sub-output is merged into the accumulator with `Xt.update(xs)` (its items
inserted in order, overwriting existing keys), any other sub-output is
stored with `Xt[name] = xs`. -/
def mergeEntry (Xt : List (String × Val)) (name : String) (xs : Val) : List (String × Val) :=
  match xs with
  | Val.dict entries => entries.foldl (fun d e => dictInsert d e.1 e.2) Xt
  | other => dictInsert Xt name other

/-- Embedding of `DictFeatureUnion._update_transformed_dict(Xs)`: the loop
`for (name, _), xs in zip(self.transformer_list, Xs)` — note that it zips
the FULL transformer list (including `None` entries) with the outputs of
the ACTIVE transformers only. -/
def updateTransformedDict (tl : List (String × Option Trans)) (Xs : List Val) :
    List (String × Val) :=
  (tl.zip Xs).foldl (fun Xt pz => mergeEntry Xt pz.1.1 pz.2) []

/-- A `DictFeatureUnion` instance (its `transformer_list`). -/
structure DictFeatureUnion where
  transformer_list : List (String × Option Trans)

/-- Embedding of `DictFeatureUnion.transform(X)`: collect the active
transformers' outputs; `{}` when there are none (all transformers `None`),
otherwise the merged dictionary. -/
def DictFeatureUnion.transform (u : DictFeatureUnion) (X : Val) : Val :=
  let Xs := activeOutputs (fun t => t.transformF X) u.transformer_list
  if Xs.isEmpty then Val.dict []
  else Val.dict (updateTransformedDict u.transformer_list Xs)

/-- Embedding of `DictFeatureUnion.fit_transform(X, y)`: same shape with
the `fit_transform` outputs.  (`_update_transformer_list` replaces the
fitted transformers in `self.transformer_list` keeping every name and every
`None` entry in place, so the subsequent `_update_transformed_dict` sees
the same names.) -/
def DictFeatureUnion.fit_transform (u : DictFeatureUnion) (X : Val) : Val :=
  let Xs := activeOutputs (fun t => t.fitTransformF X) u.transformer_list
  if Xs.isEmpty then Val.dict []
  else Val.dict (updateTransformedDict u.transformer_list Xs)

/-- Modelled from the words of claim C6 (for comparison with the code):
iterate the ACTIVE transformers each paired with its OWN step name; a dict
sub-output is merged into the result, any other sub-output is stored under
that step's name; `{}` when no transformer is active. -/
def dictUnionTransformClaimed (tl : List (String × Option Trans)) (X : Val) : Val :=
  let pairs := tl.filterMap (fun p => p.2.map (fun t => (p.1, t.transformF X)))
  if pairs.isEmpty then Val.dict []
  else Val.dict (pairs.foldl (fun Xt pz => mergeEntry Xt pz.1 pz.2) [])

theorem fold_merge_zip_eq (out : Trans → Val) :
    ∀ (tl : List (String × Option Trans)) (acc : List (String × Val)),
      (∀ p ∈ tl, p.2.isSome = true) →
      (tl.zip (activeOutputs out tl)).foldl (fun Xt pz => mergeEntry Xt pz.1.1 pz.2) acc
        = (tl.filterMap (fun p => p.2.map (fun t => (p.1, out t)))).foldl
            (fun Xt pz => mergeEntry Xt pz.1 pz.2) acc := by
  intro tl
  induction tl with
  | nil => intro acc _; rfl
  | cons p rest ih =>
    intro acc h
    rcases p with ⟨name, topt⟩
    cases topt with
    | none =>
      have := h ⟨name, Option.none⟩ (List.mem_cons_self _ _)
      simp at this
    | some t =>
      have hrest : ∀ p ∈ rest, p.2.isSome = true :=
        fun p hp => h p (List.mem_cons_of_mem _ hp)
      simp only [activeOutputs, List.filterMap_cons, Option.map_some,
        List.zip_cons_cons, List.foldl_cons]
      exact ih _ hrest

/-- When every transformer is active (none is `None`), the code's
`transform` agrees with the behavior claim C6 describes: each dict
sub-output is flattened in, every other sub-output is keyed by its own
step name. -/
theorem dictFeatureUnion_transform_all_active (tl : List (String × Option Trans))
    (X : Val) (h : ∀ p ∈ tl, p.2.isSome = true) :
    DictFeatureUnion.transform ⟨tl⟩ X = dictUnionTransformClaimed tl X := by
  cases tl with
  | nil => rfl
  | cons p rest =>
    rcases p with ⟨name, topt⟩
    cases topt with
    | none =>
      have := h ⟨name, Option.none⟩ (List.mem_cons_self _ _)
      simp at this
    | some t =>
      simp only [DictFeatureUnion.transform, dictUnionTransformClaimed,
        activeOutputs, List.filterMap_cons, Option.map_some, List.isEmpty_cons,
        updateTransformedDict]
      have := fold_merge_zip_eq (fun t => t.transformF X)
        (⟨name, some t⟩ :: rest) [] h
      simpa [activeOutputs, updateTransformedDict] using this

/-- C6: the claim (and the class docstring "the dictionaries keys
correspond to the transformer step names") fails on the code as soon as a
`None` transformer precedes an active one, because
`_update_transformed_dict` zips the full transformer list against the
outputs of the active transformers only.  At the failing input
`transformer_list = [("a", None), ("b", t)]` with `t` returning the
non-dict value `3`, both `transform` and `fit_transform` store `t`'s
output under the dropped step's name `"a"`, while the claimed behavior
stores it under its own step name `"b"`.  The remaining conjuncts check
the claim's described behavior where the code does follow it: all
transformers `None` gives `{}`, and dict sub-outputs are flattened in
with later keys overwriting earlier ones. -/
theorem dictFeatureUnion_transform_misnames_after_none :
    DictFeatureUnion.transform
        ⟨[("a", Option.none), ("b", some ⟨fun _ => Val.int 3, fun _ => Val.int 3⟩)]⟩
        (Val.int 0)
      = Val.dict [("a", Val.int 3)]
    ∧ DictFeatureUnion.fit_transform
        ⟨[("a", Option.none), ("b", some ⟨fun _ => Val.int 3, fun _ => Val.int 3⟩)]⟩
        (Val.int 0)
      = Val.dict [("a", Val.int 3)]
    ∧ dictUnionTransformClaimed
        [("a", Option.none), ("b", some ⟨fun _ => Val.int 3, fun _ => Val.int 3⟩)]
        (Val.int 0)
      = Val.dict [("b", Val.int 3)]
    ∧ Val.dict [("a", Val.int 3)] ≠ Val.dict [("b", Val.int 3)]
    ∧ DictFeatureUnion.transform ⟨[("x", Option.none)]⟩ (Val.int 0) = Val.dict []
    ∧ DictFeatureUnion.transform
        ⟨[("p", some ⟨fun _ => Val.dict [("k", Val.int 1), ("q", Val.int 9)],
            fun _ => Val.none⟩),
          ("q", some ⟨fun _ => Val.int 2, fun _ => Val.none⟩)]⟩
        (Val.int 0)
      = Val.dict [("k", Val.int 1), ("q", Val.int 2)] := by
  refine ⟨rfl, rfl, rfl, ?_, rfl, rfl⟩
  intro h
  simp at h

/-- `scipy.sparse.issparse`. -/
def issparse : Val → Bool
  | Val.sparseMat _ _ => true
  | _ => false

/-- `isinstance(f, (pd.DataFrame, pd.Series))`. -/
def isDfOrSeries : Val → Bool
  | Val.frame _ _ => true
  | Val.series _ _ _ => true
  | _ => false

/-- Whether a value is a pandas DataFrame. -/
def isFrameV : Val → Bool
  | Val.frame _ _ => true
  | _ => false

/-- Whether a value is a 2-d numpy array. -/
def isArrV : Val → Bool
  | Val.arr _ _ => true
  | _ => false

/-- The columns a value contributes when coerced for horizontal stacking
(`none` for values numpy/scipy cannot coerce to a 2-d numeric block). -/
def valCols : Val → Option (List (List Int))
  | Val.sparseMat _ cols => some cols
  | Val.arr _ cols => some cols
  | Val.frame _ cols => some (cols.map Prod.snd)
  | Val.series _ _ vals => some [vals]
  | _ => Option.none

/-- `scipy.sparse.hstack(Xs).tocsr()`: the blocks' columns side by side in
one sparse matrix. -/
def spHstack (xs : List Val) : Option Val := do
  let first ← xs.head?
  let n ← first.nrows
  let colss ← xs.mapM valCols
  pure (Val.sparseMat n colss.flatten)

/-- `np.hstack(Xs)`: the blocks' columns side by side in one array. -/
def npHstack (xs : List Val) : Option Val := do
  let first ← xs.head?
  let n ← first.nrows
  let colss ← xs.mapM valCols
  pure (Val.arr n colss.flatten)

/-- `f.reset_index(drop=True)` on a frame or series: the index is replaced
by the default `RangeIndex` of the same length. -/
def reset_index : Val → Val
  | Val.frame idx cols => Val.frame ((List.range idx.length).map Int.ofNat) cols
  | Val.series idx name vals => Val.series ((List.range idx.length).map Int.ofNat) name vals
  | v => v

/-- The pandas index of a frame or series. -/
def valIndex : Val → Option (List Int)
  | Val.frame idx _ => some idx
  | Val.series idx _ _ => some idx
  | _ => Option.none

/-- The named columns a frame or series contributes to a column-wise
concatenation (a series becomes one column carrying its name). -/
def valNamedCols : Val → Option (List (String × List Int))
  | Val.frame _ cols => some cols
  | Val.series _ name vals => some [(name, vals)]
  | _ => Option.none

/-- `pd.concat(Xs, axis=1, copy=self.copy)` restricted to frames/series
that share one index — the shape the union produces after `reset_index`
(pandas would outer-align differing indexes; that alignment is outside
this embedding, `none`).  The `copy` flag only controls buffer sharing,
never the resulting value, and is therefore not a parameter here. -/
def pdConcatCols (xs : List Val) : Option Val :=
  match xs with
  | [] => Option.none
  | x :: rest => do
      let idx ← valIndex x
      if rest.all (fun y => valIndex y == some idx) then
        let colss ← (x :: rest).mapM valNamedCols
        pure (Val.frame idx colss.flatten)
      else Option.none

/-- A `DataFrameFeatureUnion` instance: the `transformer_list` plus the
`ignore_index` and `copy` constructor parameters. -/
structure DataFrameFeatureUnion where
  transformer_list : List (String × Option Trans)
  ignore_index : Bool
  copy : Bool

/-- Embedding of `DataFrameFeatureUnion.transform(X)`: collect the active
transformers' outputs; `np.zeros((X.shape[0], 0))` when there are none;
else sparse-hstack if any output is sparse; else column-concatenate when
every output is a frame/series (resetting indexes first when
`ignore_index`); else numpy-hstack. -/
def DataFrameFeatureUnion.transform (u : DataFrameFeatureUnion) (X : Val) : Option Val :=
  let Xs := activeOutputs (fun t => t.transformF X) u.transformer_list
  if Xs.isEmpty then (X.nrows).map (fun n => Val.arr n [])
  else if Xs.any issparse then spHstack Xs
  else if Xs.all isDfOrSeries then
    pdConcatCols (if u.ignore_index then Xs.map reset_index else Xs)
  else npHstack Xs

/-- Embedding of `DataFrameFeatureUnion.fit_transform(X, y)`: the same
container choice over the `fit_transform` outputs. -/
def DataFrameFeatureUnion.fit_transform (u : DataFrameFeatureUnion) (X : Val) :
    Option Val :=
  let Xs := activeOutputs (fun t => t.fitTransformF X) u.transformer_list
  if Xs.isEmpty then (X.nrows).map (fun n => Val.arr n [])
  else if Xs.any issparse then spHstack Xs
  else if Xs.all isDfOrSeries then
    pdConcatCols (if u.ignore_index then Xs.map reset_index else Xs)
  else npHstack Xs

theorem isEmpty_false_of_ne_nil {l : List α} (h : l ≠ []) : l.isEmpty = false := by
  cases l with
  | nil => exact absurd rfl h
  | cons a rest => rfl

theorem spHstack_issparse {xs : List Val} {v : Val} (h : spHstack xs = some v) :
    issparse v = true := by
  simp only [spHstack, bind, Option.bind_eq_some, pure] at h
  rcases h with ⟨first, _, n, _, colss, _, hv⟩
  rcases Option.some.inj hv with rfl
  rfl

theorem npHstack_isArr {xs : List Val} {v : Val} (h : npHstack xs = some v) :
    isArrV v = true := by
  simp only [npHstack, bind, Option.bind_eq_some, pure] at h
  rcases h with ⟨first, _, n, _, colss, _, hv⟩
  rcases Option.some.inj hv with rfl
  rfl

theorem pdConcatCols_isFrame {xs : List Val} {v : Val} (h : pdConcatCols xs = some v) :
    isFrameV v = true := by
  cases xs with
  | nil => simp [pdConcatCols] at h
  | cons x rest =>
    simp only [pdConcatCols, bind, Option.bind_eq_some] at h
    rcases h with ⟨idx, _, hv⟩
    split at hv
    · simp only [Option.bind_eq_some, pure] at hv
      rcases hv with ⟨colss, _, hv⟩
      rcases Option.some.inj hv with rfl
      rfl
    · simp at hv

/-- C7: For every `DataFrameFeatureUnion`, `transform` (and
`fit_transform`) chooses the output container by the sub-outputs' types:
when there are no active transformers (all `None`) the result is
`np.zeros((X.shape[0], 0))`, an array with zero columns; if any sub-output
is sparse the results are sparse-hstacked into one sparse (CSR) matrix;
otherwise, if every sub-output is a pandas DataFrame or Series they are
concatenated column-wise into one dataframe, with indexes dropped first
when `ignore_index` is set; otherwise the results are numpy-hstacked into
one array. -/
theorem dataFrameFeatureUnion_container_choice (u : DataFrameFeatureUnion) (X : Val)
    (Xs Ys : List Val)
    (hXs : Xs = activeOutputs (fun t => t.transformF X) u.transformer_list)
    (hYs : Ys = activeOutputs (fun t => t.fitTransformF X) u.transformer_list) :
    ((Xs = [] → u.transform X = X.nrows.map (fun n => Val.arr n []))
     ∧ (Xs.any issparse = true →
         u.transform X = spHstack Xs
         ∧ ∀ v, u.transform X = some v → issparse v = true)
     ∧ (Xs ≠ [] → Xs.any issparse = false → Xs.all isDfOrSeries = true →
         u.transform X = pdConcatCols (if u.ignore_index then Xs.map reset_index else Xs)
         ∧ ∀ v, u.transform X = some v → isFrameV v = true)
     ∧ (Xs ≠ [] → Xs.any issparse = false → Xs.all isDfOrSeries = false →
         u.transform X = npHstack Xs
         ∧ ∀ v, u.transform X = some v → isArrV v = true))
    ∧ ((Ys = [] → u.fit_transform X = X.nrows.map (fun n => Val.arr n []))
     ∧ (Ys.any issparse = true →
         u.fit_transform X = spHstack Ys
         ∧ ∀ v, u.fit_transform X = some v → issparse v = true)
     ∧ (Ys ≠ [] → Ys.any issparse = false → Ys.all isDfOrSeries = true →
         u.fit_transform X
           = pdConcatCols (if u.ignore_index then Ys.map reset_index else Ys)
         ∧ ∀ v, u.fit_transform X = some v → isFrameV v = true)
     ∧ (Ys ≠ [] → Ys.any issparse = false → Ys.all isDfOrSeries = false →
         u.fit_transform X = npHstack Ys
         ∧ ∀ v, u.fit_transform X = some v → isArrV v = true)) := by
  subst hXs
  subst hYs
  refine ⟨⟨?_, ?_, ?_, ?_⟩, ⟨?_, ?_, ?_, ?_⟩⟩
  · intro h
    simp [DataFrameFeatureUnion.transform, h]
  · intro hsp
    have hne : activeOutputs (fun t => t.transformF X) u.transformer_list ≠ [] := by
      intro hnil
      rw [hnil] at hsp
      simp at hsp
    have ht : u.transform X
        = spHstack (activeOutputs (fun t => t.transformF X) u.transformer_list) := by
      simp [DataFrameFeatureUnion.transform, isEmpty_false_of_ne_nil hne, hsp]
    exact ⟨ht, fun v hv => spHstack_issparse (ht.symm.trans hv)⟩
  · intro hne hsp hall
    have ht : u.transform X
        = pdConcatCols (if u.ignore_index
            then (activeOutputs (fun t => t.transformF X) u.transformer_list).map reset_index
            else activeOutputs (fun t => t.transformF X) u.transformer_list) := by
      simp [DataFrameFeatureUnion.transform, isEmpty_false_of_ne_nil hne, hsp, hall]
    exact ⟨ht, fun v hv => pdConcatCols_isFrame (ht.symm.trans hv)⟩
  · intro hne hsp hall
    have ht : u.transform X
        = npHstack (activeOutputs (fun t => t.transformF X) u.transformer_list) := by
      simp [DataFrameFeatureUnion.transform, isEmpty_false_of_ne_nil hne, hsp, hall]
    exact ⟨ht, fun v hv => npHstack_isArr (ht.symm.trans hv)⟩
  · intro h
    simp [DataFrameFeatureUnion.fit_transform, h]
  · intro hsp
    have hne : activeOutputs (fun t => t.fitTransformF X) u.transformer_list ≠ [] := by
      intro hnil
      rw [hnil] at hsp
      simp at hsp
    have ht : u.fit_transform X
        = spHstack (activeOutputs (fun t => t.fitTransformF X) u.transformer_list) := by
      simp [DataFrameFeatureUnion.fit_transform, isEmpty_false_of_ne_nil hne, hsp]
    exact ⟨ht, fun v hv => spHstack_issparse (ht.symm.trans hv)⟩
  · intro hne hsp hall
    have ht : u.fit_transform X
        = pdConcatCols (if u.ignore_index
            then (activeOutputs (fun t => t.fitTransformF X) u.transformer_list).map
              reset_index
            else activeOutputs (fun t => t.fitTransformF X) u.transformer_list) := by
      simp [DataFrameFeatureUnion.fit_transform, isEmpty_false_of_ne_nil hne, hsp, hall]
    exact ⟨ht, fun v hv => pdConcatCols_isFrame (ht.symm.trans hv)⟩
  · intro hne hsp hall
    have ht : u.fit_transform X
        = npHstack (activeOutputs (fun t => t.fitTransformF X) u.transformer_list) := by
      simp [DataFrameFeatureUnion.fit_transform, isEmpty_false_of_ne_nil hne, hsp, hall]
    exact ⟨ht, fun v hv => npHstack_isArr (ht.symm.trans hv)⟩

/-- C7 witness: the theorem applied to four concrete unions hitting the
four branches — all transformers `None` (zero-column array), one sparse
sub-output (sparse result), frame plus series sub-outputs with differing
indexes dropped (one dataframe), and array plus series sub-outputs (one
array). -/
theorem dataFrameFeatureUnion_container_choice_witness :
    DataFrameFeatureUnion.transform ⟨[("x", Option.none)], true, true⟩ (Val.arr 3 [])
      = some (Val.arr 3 [])
    ∧ DataFrameFeatureUnion.transform
        ⟨[("m", some ⟨fun _ => Val.sparseMat 2 [[1, 0]], fun _ => Val.none⟩),
          ("a", some ⟨fun _ => Val.arr 2 [[7, 8]], fun _ => Val.none⟩)],
         true, true⟩ (Val.int 0)
      = some (Val.sparseMat 2 [[1, 0], [7, 8]])
    ∧ DataFrameFeatureUnion.transform
        ⟨[("f", some ⟨fun _ => Val.frame [5, 6] [("c1", [1, 2])], fun _ => Val.none⟩),
          ("s", some ⟨fun _ => Val.series [9, 7] "s0" [3, 4], fun _ => Val.none⟩)],
         true, true⟩ (Val.int 0)
      = some (Val.frame [0, 1] [("c1", [1, 2]), ("s0", [3, 4])])
    ∧ DataFrameFeatureUnion.transform
        ⟨[("a", some ⟨fun _ => Val.arr 2 [[7, 8]], fun _ => Val.none⟩),
          ("s", some ⟨fun _ => Val.series [0, 1] "z" [5, 6], fun _ => Val.none⟩)],
         true, true⟩ (Val.int 0)
      = some (Val.arr 2 [[7, 8], [5, 6]]) := by
  refine ⟨?_, ?_, ?_, ?_⟩
  · have h := dataFrameFeatureUnion_container_choice
      ⟨[("x", Option.none)], true, true⟩ (Val.arr 3 []) _ _ rfl rfl
    exact (h.1.1 rfl).trans rfl
  · have h := dataFrameFeatureUnion_container_choice
      ⟨[("m", some ⟨fun _ => Val.sparseMat 2 [[1, 0]], fun _ => Val.none⟩),
        ("a", some ⟨fun _ => Val.arr 2 [[7, 8]], fun _ => Val.none⟩)],
       true, true⟩ (Val.int 0) _ _ rfl rfl
    exact ((h.1.2.1 rfl).1).trans rfl
  · have h := dataFrameFeatureUnion_container_choice
      ⟨[("f", some ⟨fun _ => Val.frame [5, 6] [("c1", [1, 2])], fun _ => Val.none⟩),
        ("s", some ⟨fun _ => Val.series [9, 7] "s0" [3, 4], fun _ => Val.none⟩)],
       true, true⟩ (Val.int 0) _ _ rfl rfl
    have hne : activeOutputs
        (fun t => t.transformF (Val.int 0))
        [("f", some ⟨fun _ => Val.frame [5, 6] [("c1", [1, 2])], fun _ => Val.none⟩),
         ("s", some ⟨fun _ => Val.series [9, 7] "s0" [3, 4], fun _ => Val.none⟩)]
        ≠ [] := by simp [activeOutputs]
    exact ((h.1.2.2.1 hne rfl rfl).1).trans rfl
  · have h := dataFrameFeatureUnion_container_choice
      ⟨[("a", some ⟨fun _ => Val.arr 2 [[7, 8]], fun _ => Val.none⟩),
        ("s", some ⟨fun _ => Val.series [0, 1] "z" [5, 6], fun _ => Val.none⟩)],
       true, true⟩ (Val.int 0) _ _ rfl rfl
    have hne : activeOutputs
        (fun t => t.transformF (Val.int 0))
        [("a", some ⟨fun _ => Val.arr 2 [[7, 8]], fun _ => Val.none⟩),
         ("s", some ⟨fun _ => Val.series [0, 1] "z" [5, 6], fun _ => Val.none⟩)]
        ≠ [] := by simp [activeOutputs]
    exact ((h.1.2.2.2 hne rfl rfl).1).trans rfl

end Dstoolbox
